import Mathlib

/-!
Verification of the upm-lsp language server core against its specification.

The TypeScript sources are shallowly embedded: JavaScript strings become
`List Char`, JavaScript `Map` becomes an insertion-ordered association list,
`Date.now()` becomes an explicit `now : Nat` argument, network/filesystem
I/O becomes explicit outcome parameters (`Except`/oracle functions), and
fallible code returns `Option`/`Except`.
-/

set_option maxHeartbeats 1000000

namespace UpmLsp

/-- JavaScript strings, modelled as lists of characters. -/
abbrev Str := List Char

/-- Lift a Lean string literal into the model. -/
def str (s : String) : Str := s.toList

/-- `a.startsWith b` on JavaScript strings. -/
def strStarts : Str → Str → Bool
  | _, [] => true
  | [], _ :: _ => false
  | c :: cs, p :: ps => c = p && strStarts cs ps

/-- `a.endsWith b` on JavaScript strings. -/
def strEnds (s p : Str) : Bool := strStarts s.reverse p.reverse

/-- `a.includes(b)` (substring test) on JavaScript strings. -/
def strIncludes : Str → Str → Bool
  | s, p => if strStarts s p then true else
      match s with
      | [] => false
      | _ :: rest => strIncludes rest p

/-- `a.includes(c)` for a single character. -/
def strHasChar (s : Str) (c : Char) : Bool := s.any (· = c)

/-! ## Insertion-ordered string-keyed map (JavaScript `Map`) -/

/-- `Map.get` semantics: first (and, by construction, only) binding wins. -/
def mapLookup {V : Type} : List (Str × V) → Str → Option V
  | [], _ => none
  | (k', v') :: rest, k => if k' = k then some v' else mapLookup rest k

/-- `Map.set` semantics: replace in place, or append a fresh binding. -/
def mapSet {V : Type} : List (Str × V) → Str → V → List (Str × V)
  | [], k, v => [(k, v)]
  | (k', v') :: rest, k, v =>
      if k' = k then (k, v) :: rest else (k', v') :: mapSet rest k v

/-- `Map.delete` semantics. -/
def mapDelete {V : Type} : List (Str × V) → Str → List (Str × V)
  | [], _ => []
  | (k', v') :: rest, k => if k' = k then rest else (k', v') :: mapDelete rest k

/-! ## TTL cache (`Cache<T>` in `registries/registryClient.ts`)

The mutable class is embedded by explicit state passing; `Date.now()`
becomes the explicit `now` argument. -/

/-- A cache slot: `{ value, expiresAt }`. -/
structure CacheEntry (V : Type) where
  value : V
  expiresAt : Nat
deriving Repr, DecidableEq

/-- The backing `Map` of a `Cache<T>`. -/
abbrev CacheStore (V : Type) := List (Str × CacheEntry V)

/-- `Cache.get`: returns the value if present and not expired; an expired
entry is deleted on read. Returns the value (if any) and the new store. -/
def cacheGet {V : Type} (store : CacheStore V) (k : Str) (now : Nat) :
    Option V × CacheStore V :=
  match mapLookup store k with
  | none => (none, store)
  | some e =>
      if now > e.expiresAt then (none, mapDelete store k)
      else (some e.value, store)

/-- `Cache.set`: stores `value` with expiry `now + ttl`. -/
def cacheSet {V : Type} (store : CacheStore V) (k : Str) (v : V)
    (ttlMs now : Nat) : CacheStore V :=
  mapSet store k ⟨v, now + ttlMs⟩

/-- `Cache.prune`: deletes every entry with `now > expiresAt`. -/
def cachePrune {V : Type} (store : CacheStore V) (now : Nat) : CacheStore V :=
  store.filter (fun p => !decide (now > p.2.expiresAt))

/-! ## Version comparator (`registries/versionUtils.ts`)

`compareVersions` splits on `.` and `-`; each piece is kept as a string
when `Number(piece)` is `NaN`, else converted to a number.  The model of
`Number` covers the values that can actually arise from a piece containing
neither `.` nor `-`: integer decimal literals with an optional non-negative
exponent, hex/octal/binary literals, the empty string (value 0), and
optional surrounding whitespace and sign.  (`Infinity` and fractional
values cannot be represented in `Int` and are outside the model.) -/

/-- A parsed version part: number or string. -/
inductive VersionPart where
  | num (n : Int)
  | str (s : Str)
deriving Repr, DecidableEq

/-- The ASCII whitespace characters of JavaScript `\s` (the Unicode members
are irrelevant to the manifests modelled here). -/
def jsWs (c : Char) : Bool :=
  c = ' ' || c = '\t' || c = '\n' || c = '\r' ||
  c = Char.ofNat 11 || c = Char.ofNat 12

/-- Split a string into its leading digit run and the remainder. -/
def splitDigits : Str → Str × Str
  | [] => ([], [])
  | c :: r =>
      if c.isDigit then
        let (d, rest) := splitDigits r
        (c :: d, rest)
      else ([], c :: r)

/-- Value of a nonempty decimal digit run. -/
def parseDigitsAux : Nat → Str → Option Nat
  | acc, [] => some acc
  | acc, c :: r =>
      if c.isDigit then parseDigitsAux (acc * 10 + (c.toNat - 48)) r else none

/-- Value of a nonempty decimal digit run; `none` on empty or non-digits. -/
def parseDigits : Str → Option Nat
  | [] => none
  | l => parseDigitsAux 0 l

/-- Value of a nonempty run of digits in base `b` (hex digits case-insensitive). -/
def parseRadixAux (b : Nat) : Nat → Str → Option Nat
  | acc, [] => some acc
  | acc, c :: r =>
      let d :=
        if c.isDigit then some (c.toNat - 48)
        else if 'a' ≤ c ∧ c ≤ 'f' then some (c.toNat - 87)
        else if 'A' ≤ c ∧ c ≤ 'F' then some (c.toNat - 55)
        else none
      match d with
      | some d => if d < b then parseRadixAux b (acc * b + d) r else none
      | none => none

/-- Value of a nonempty base-`b` digit run; `none` on empty or bad digits. -/
def parseRadix (b : Nat) : Str → Option Nat
  | [] => none
  | l => parseRadixAux b 0 l

/-- Exponent suffix after `e`/`E`: optional `+`, then digits. -/
def expSuffix (m : Nat) (r : Str) : Option Int :=
  match parseDigits (if strStarts r (str "+") then r.drop 1 else r) with
  | some e => some (Int.ofNat (m * 10 ^ e))
  | none => none

/-- Decimal body of a `Number()` literal (integer mantissa, optional exponent). -/
def jsDecimal (t : Str) : Option Int :=
  match parseDigits (splitDigits t).1 with
  | none => none
  | some m =>
      if (splitDigits t).2 = [] then some (Int.ofNat m)
      else if strStarts (splitDigits t).2 (str "e") ||
          strStarts (splitDigits t).2 (str "E") then
        expSuffix m ((splitDigits t).2.drop 1)
      else none

/-- Unsigned body of a `Number()` literal: hex/oct/bin prefix or decimal. -/
def jsNumberBody (t : Str) : Option Int :=
  if strStarts t (str "0x") || strStarts t (str "0X") then
    (parseRadix 16 (t.drop 2)).map Int.ofNat
  else if strStarts t (str "0o") || strStarts t (str "0O") then
    (parseRadix 8 (t.drop 2)).map Int.ofNat
  else if strStarts t (str "0b") || strStarts t (str "0B") then
    (parseRadix 2 (t.drop 2)).map Int.ofNat
  else jsDecimal t

/-- Strip leading and trailing JavaScript whitespace. -/
def jsTrim (s : Str) : Str :=
  ((s.dropWhile jsWs).reverse.dropWhile jsWs).reverse

/-- Model of JavaScript `Number(s)` restricted to integer values:
`some n` when the conversion yields the integer `n`, `none` when it
yields `NaN`. -/
def jsNumber (s : Str) : Option Int :=
  if jsTrim s = [] then some 0
  else if strStarts (jsTrim s) (str "+") then jsNumberBody ((jsTrim s).drop 1)
  else if strStarts (jsTrim s) (str "-") then
    (jsNumberBody ((jsTrim s).drop 1)).map (fun n => -n)
  else jsNumberBody (jsTrim s)

/-- `version.split(/[.-]/)`: split on `.` and `-`, keeping empty pieces. -/
def splitOnSeps : Str → List Str
  | [] => [[]]
  | c :: r =>
      match splitOnSeps r with
      | [] => [[]]
      | p :: ps =>
          if c = '.' || c = '-' then [] :: p :: ps else (c :: p) :: ps

/-- `parseVersionParts`: each piece becomes a number unless `Number` gives `NaN`. -/
def parseVersionParts (v : Str) : List VersionPart :=
  (splitOnSeps v).map (fun p =>
    match jsNumber p with
    | some n => .num n
    | none => .str p)

/-- Decimal digit characters, for printing. -/
def dChar (d : Nat) : Char :=
  ['0', '1', '2', '3', '4', '5', '6', '7', '8', '9'].getD d '0'

/-- Decimal digit extraction (most significant first), fuelled for
structural recursion. -/
def natDigitsAux : Nat → Nat → Str
  | 0, _ => []
  | fuel + 1, n => if n = 0 then [] else natDigitsAux fuel (n / 10) ++ [dChar (n % 10)]

/-- Decimal representation of a natural number. -/
def natDigitsStr (n : Nat) : Str :=
  if n = 0 then ['0'] else natDigitsAux n n

/-- Model of JavaScript `String(n)` on an integer-valued number. -/
def jsStringOfInt : Int → Str
  | .ofNat n => natDigitsStr n
  | .negSucc m => '-' :: natDigitsStr (m + 1)

/-- `String(part)` applied to a version part. -/
def partToStr : VersionPart → Str
  | .num n => jsStringOfInt n
  | .str s => s

/-- Code-point-lexicographic string comparison (model of the default
`localeCompare`, which the comparator only reaches for distinct
string-vs-string parts). -/
def strCompare : Str → Str → Int
  | [], [] => 0
  | [], _ :: _ => -1
  | _ :: _, [] => 1
  | a :: ra, b :: rb =>
      if a.toNat < b.toNat then -1
      else if b.toNat < a.toNat then 1
      else strCompare ra rb

/-- One iteration of the `compareVersions` loop: `some r` returns `r`,
`none` continues with the next position. -/
def comparePartsStep (a b : VersionPart) : Option Int :=
  match a, b with
  | .num x, .num y => if x ≠ y then some (x - y) else none
  | _, _ =>
      let sa := partToStr a
      let sb := partToStr b
      if sa = sb then none
      else
        match a, b with
        | .str _, .num _ => some (-1)
        | .num _, .str _ => some 1
        | _, _ => some (strCompare sa sb)

/-- The `for i in 0..maxLen` loop of `compareVersions`; a missing trailing
part reads as the number 0 (`partsX[i] ?? 0`). -/
def comparePartsAux : Nat → List VersionPart → List VersionPart → Int
  | 0, _, _ => 0
  | fuel + 1, pa, pb =>
      let a := pa.headD (.num 0)
      let b := pb.headD (.num 0)
      match comparePartsStep a b with
      | some r => r
      | none => comparePartsAux fuel pa.tail pb.tail

/-- Compare two part lists, element-wise up to the longer length. -/
def compareParts (pa pb : List VersionPart) : Int :=
  comparePartsAux (max pa.length pb.length) pa pb

/-- `compareVersions(a, b)` from `registries/versionUtils.ts`. -/
def compareVersions (a b : Str) : Int :=
  compareParts (parseVersionParts a) (parseVersionParts b)

/-- `sortVersionsDescending`: stable sort with `(a, b) => compareVersions(b, a)`. -/
def sortVersionsDescending (versions : List Str) : List Str :=
  versions.mergeSort (fun a b => compareVersions b a ≤ 0)

/-! ## Structural context classifier (`utils/jsonHelper.ts`)

`getJsonContext(document, position)` is embedded after the
document-to-text and position-to-offset conversion: the model takes the
raw text and the cursor offset. -/

/-- `text.slice(a, b)` for `a ≤ b`. -/
def sliceChars (t : Str) (a b : Nat) : Str := (t.take b).drop a

/-- Expect a literal at the head; return the remainder on success. -/
def dropLit : Str → Str → Option Str
  | s, [] => some s
  | [], _ :: _ => none
  | c :: cs, p :: ps => if c = p then dropLit cs ps else none

/-- Match `<keyLit>\s*:\s*<openCh>` at the head of `s`, returning the
matched length (the regexes `/"dependencies"\s*:\s*\{/` and
`/"scopedRegistries"\s*:\s*\[/` instantiated at one position). -/
def matchKeyOpenAt (keyLit : Str) (openCh : Char) (s : Str) : Option Nat :=
  match dropLit s keyLit with
  | none => none
  | some r1 =>
      let w1 := r1.takeWhile jsWs
      match r1.drop w1.length with
      | ':' :: r2 =>
          let w2 := r2.takeWhile jsWs
          match r2.drop w2.length with
          | c :: _ =>
              if c = openCh then some (keyLit.length + w1.length + 1 + w2.length + 1)
              else none
          | [] => none
      | _ => none

/-- `String.match` with a non-global regex: the match at the first
position where the matcher succeeds (JavaScript regex engines scan
left to right). -/
def scanFirst {α : Type} (m : Str → Option α) : Str → Option (Nat × α)
  | [] => (m []).map (fun a => (0, a))
  | c :: rest =>
      match m (c :: rest) with
      | some a => some (0, a)
      | none => (scanFirst m rest).map (fun p => (p.1 + 1, p.2))

/-- All positions (in order) where the matcher succeeds. -/
def scanAll {α : Type} (m : Str → Option α) : Str → List (Nat × α)
  | [] =>
      match m [] with
      | some a => [(0, a)]
      | none => []
  | c :: rest =>
      let tailMatches := (scanAll m rest).map (fun p => (p.1 + 1, p.2))
      match m (c :: rest) with
      | some a => (0, a) :: tailMatches
      | none => tailMatches

/-- The literal `"dependencies"` (quotes included). -/
def depsKeyLit : Str := str "\"dependencies\""

/-- The literal `"scopedRegistries"` (quotes included). -/
def scopedKeyLit : Str := str "\"scopedRegistries\""

/-- The anchor matcher for `/"dependencies"\s*:\s*\{/`. -/
def matchDepsAt (s : Str) : Option Nat := matchKeyOpenAt depsKeyLit '{' s

/-- The anchor matcher for `/"scopedRegistries"\s*:\s*\[/`. -/
def matchScopedAt (s : Str) : Option Nat := matchKeyOpenAt scopedKeyLit '[' s

/-- `countBraces`: running brace count starting at 1, early 0 on closing. -/
def countBracesFrom : Str → Int → Int
  | [], n => n
  | c :: r, n =>
      let n1 := if c = '{' then n + 1 else n
      let n2 := if c = '}' then n1 - 1 else n1
      if n2 = 0 then 0 else countBracesFrom r n2

/-- `countBraces(text, startOffset, endOffset)` from the source. -/
def countBraces (t : Str) (a b : Nat) : Int :=
  countBracesFrom (sliceChars t a b) 1

/-- Result of `isInsideDependencies`. -/
structure DepCheck where
  inside : Bool
  startOffset : Nat
deriving Repr, DecidableEq

/-- `isInsideDependencies(text, offset)`: anchor search over the text
before the cursor (`String.match`, hence the first occurrence), then
brace counting from the anchor to the cursor. -/
def isInsideDependencies (t : Str) (offset : Nat) : DepCheck :=
  let beforeCursor := t.take offset
  match scanFirst matchDepsAt beforeCursor with
  | none => ⟨false, 0⟩
  | some (i, len) =>
      let startOffset := i + len
      ⟨decide (countBraces t startOffset offset > 0), startOffset⟩

/-- Result of `isInsideScopedRegistries`. -/
structure ScopedCheck where
  inside : Bool
  inObject : Bool
  startOffset : Nat
deriving Repr, DecidableEq

/-- The character loop of `isInsideScopedRegistries`. -/
def scopedLoop : Str → Int → Int → Bool → Bool × Bool
  | [], bracket, brace, inObj => (decide (bracket > 0), inObj && decide (brace > 0))
  | c :: r, bracket, brace, inObj =>
      let bracket1 := if c = '[' then bracket + 1 else bracket
      let bracket2 := if c = ']' then bracket1 - 1 else bracket1
      let brace1 := if c = '{' then brace + 1 else brace
      let inObj1 := if c = '{' then true else inObj
      let brace2 := if c = '}' then brace1 - 1 else brace1
      let inObj2 := if c = '}' then (if brace2 = 0 then false else inObj1) else inObj1
      if bracket2 = 0 then (false, false)
      else scopedLoop r bracket2 brace2 inObj2

/-- `isInsideScopedRegistries(text, offset)`. -/
def isInsideScopedRegistries (t : Str) (offset : Nat) : ScopedCheck :=
  let beforeCursor := t.take offset
  match scanFirst matchScopedAt beforeCursor with
  | none => ⟨false, false, 0⟩
  | some (i, len) =>
      let startOffset := i + len
      let r := scopedLoop (sliceChars t startOffset offset) 1 0 false
      ⟨r.1, r.2, startOffset⟩

/-- State of the `isAtTopLevel` scan. -/
structure TLState where
  braceDepth : Int
  bracketDepth : Int
  inString : Bool
  esc : Bool

/-- One character of the `isAtTopLevel` scan (string-literal aware). -/
def tlStep (st : TLState) (c : Char) : TLState :=
  if st.esc then { st with esc := false }
  else if c = '\\' then { st with esc := true }
  else if c = '"' then { st with inString := !st.inString }
  else if st.inString then st
  else
    { st with
      braceDepth := st.braceDepth + (if c = '{' then 1 else 0) -
        (if c = '}' then 1 else 0),
      bracketDepth := st.bracketDepth + (if c = '[' then 1 else 0) -
        (if c = ']' then 1 else 0) }

/-- `isAtTopLevel(text, offset)`. -/
def isAtTopLevel (t : Str) (offset : Nat) : Bool :=
  let st := (t.take offset).foldl tlStep ⟨0, 0, false, false⟩
  decide (st.braceDepth = 1) && decide (st.bracketDepth = 0)

/-- The current line: the part of `beforeCursor` after the last newline. -/
def afterLastNewline (s : Str) : Str :=
  s.foldl (fun acc c => if c = '\n' then [] else acc ++ [c]) []

/-- The matcher of `/"([^"]*)"?$/` at one position: an opening quote, a
maximal run of non-quotes, then either the end or one closing quote at
the very end; yields the captured body. -/
def quoteTailAt : Str → Option Str
  | '"' :: rest =>
      let body := rest.takeWhile (fun c => !(c = '"'))
      match rest.drop body.length with
      | [] => some body
      | ['"'] => some body
      | _ => none
  | _ => none

/-- `extractPartialInput`: first match of `/"([^"]*)"?$/` on the current line. -/
def extractPartialInput (beforeCursor : Str) : Str :=
  match scanFirst quoteTailAt (afterLastNewline beforeCursor) with
  | some (_, body) => body
  | none => []

/-- `isInValuePosition`: the current line contains a colon. -/
def isInValuePosition (beforeCursor : Str) : Bool :=
  strHasChar (afterLastNewline beforeCursor) ':'

/-- The matcher of `/"([^"]+)"\s*:/` at one position: a nonempty quoted
body, then optional whitespace and a colon; yields the body. -/
def keyColonAt : Str → Option Str
  | '"' :: rest =>
      let body := rest.takeWhile (fun c => !(c = '"'))
      if body = [] then none
      else
        match rest.drop body.length with
        | '"' :: r2 =>
            match r2.dropWhile jsWs with
            | ':' :: _ => some body
            | _ => none
        | _ => none
  | _ => none

/-- `extractPackageNameFromLine`: first match of `/"([^"]+)"\s*:/`. -/
def extractPackageNameFromLine (beforeCursor : Str) : Str :=
  match scanFirst keyColonAt (afterLastNewline beforeCursor) with
  | some (_, body) => body
  | none => []

/-- The matcher of `/:\s*"([^"]*)"?$/` at one position. -/
def colonQuoteTailAt : Str → Option Str
  | ':' :: rest => quoteTailAt (rest.dropWhile jsWs)
  | _ => none

/-- `extractPartialVersion`: first match of `/:\s*"([^"]*)"?$/`. -/
def extractPartialVersion (beforeCursor : Str) : Str :=
  match scanFirst colonQuoteTailAt (afterLastNewline beforeCursor) with
  | some (_, body) => body
  | none => []

/-- The matcher of `/:\s*"?$/` at one position. -/
def colonEndAt (s : Str) : Bool :=
  match s with
  | [] => false
  | c :: rest =>
      c = ':' &&
        (let r := rest.dropWhile jsWs
         r = [] || r = ['"'])

/-- `.test` of `/:\s*"?$/` on the current line. -/
def colonPatternTest (line : Str) : Bool :=
  (scanFirst (fun s => if colonEndAt s then some () else none) line).isSome

/-- The `JsonContext` tagged variant. -/
inductive JsonContext where
  | topLevel
  | dependenciesKey (partialText : Str)
  | dependenciesValue (packageName : Str) (partialText : Str)
  | scopedRegistriesObject
  | scopedRegistriesScopes
  | unknown
deriving Repr, DecidableEq

/-- `getJsonContext(document, position)` after text/offset conversion. -/
def getJsonContext (t : Str) (offset : Nat) : JsonContext :=
  let beforeCursor := t.take offset
  let scopedRes := isInsideScopedRegistries t offset
  if scopedRes.inObject then .scopedRegistriesObject
  else
    let dep := isInsideDependencies t offset
    if dep.inside then
      if isInValuePosition beforeCursor &&
          colonPatternTest (afterLastNewline beforeCursor) then
        .dependenciesValue (extractPackageNameFromLine beforeCursor)
          (extractPartialVersion beforeCursor)
      else
        .dependenciesKey (extractPartialInput beforeCursor)
    else if isAtTopLevel t offset then .topLevel
    else .unknown

/-- Modelled from the spec: the classifier the specification describes,
whose anchor search selects the lexically *last* occurrence of
`"dependencies":{` before the cursor (for comparison with the code's
`isInsideDependencies`, which uses `String.match`). -/
def specAnchorLastInsideDependencies (t : Str) (offset : Nat) : DepCheck :=
  match (scanAll matchDepsAt (t.take offset)).getLast? with
  | none => ⟨false, 0⟩
  | some (i, len) =>
      ⟨decide (countBraces t (i + len) offset > 0), i + len⟩

/-! ## `file:` references (`utils/fileReference.ts`) -/

/-- The `ParseError` variant of `fileReference.ts`. -/
inductive ParseErr where
  | notFileRef
  | emptyPath
  | invalidChars
  | tooLong
deriving Repr, DecidableEq

/-- `FileReferenceInfo`. -/
structure FileReferenceInfo where
  original : Str
  path : Str
  isAbsolute : Bool
  isTarball : Bool
  isGitProtocol : Bool
deriving Repr, DecidableEq

/-- `FILE_PROTOCOL_PREFIX`. -/
def filePrefixLit : Str := str "file:"

/-- `FILE_GIT_PROTOCOL_PREFIX`. -/
def fileGitPrefixLit : Str := str "file://"

/-- `isFileReference`. -/
def isFileReference (version : Str) : Bool := strStarts version filePrefixLit

/-- `isGitFileReference`. -/
def isGitFileReference (version : Str) : Bool := strStarts version fileGitPrefixLit

/-- `path.isAbsolute` on POSIX (the win32 variant is not modelled). -/
def pathIsAbsolute (p : Str) : Bool := strStarts p (str "/")

/-- `/[\x00-\x1f]/` membership. -/
def isCtrlChar (c : Char) : Bool := c.toNat ≤ 31

/-- `parseFileReference` (Result-based). -/
def parseFileReference (reference : Str) : Except ParseErr FileReferenceInfo :=
  if !(isFileReference reference) then .error .notFileRef
  else if isGitFileReference reference then
    .ok { original := reference,
          path := reference.drop fileGitPrefixLit.length,
          isAbsolute := true, isTarball := false, isGitProtocol := true }
  else
    let filePath := reference.drop filePrefixLit.length
    if filePath = [] || jsTrim filePath = [] then .error .emptyPath
    else if filePath.any isCtrlChar then .error .invalidChars
    else if filePath.length > 1024 then .error .tooLong
    else
      .ok { original := reference, path := filePath,
            isAbsolute := pathIsAbsolute filePath,
            isTarball := strEnds filePath (str ".tgz"), isGitProtocol := false }

/-- The error-message table shared by `validateFileReferenceFormat` and
`parseErrorToMessage`. -/
def parseErrMessage : ParseErr → Str
  | .notFileRef => str "Not a file: reference"
  | .emptyPath => str "Empty path in file: reference"
  | .invalidChars => str "Path contains invalid control characters"
  | .tooLong => str "Path exceeds maximum length (1024 characters)"

/-- Result record of `validateFileReferenceFormat`. -/
structure FormatValidation where
  valid : Bool
  error : Option Str
deriving Repr, DecidableEq

/-- `validateFileReferenceFormat` (format only, no filesystem access). -/
def validateFileReferenceFormat (reference : Str) : FormatValidation :=
  match parseFileReference reference with
  | .error e => ⟨false, some (parseErrMessage e)⟩
  | .ok _ => ⟨true, none⟩

/-- `checkFileReferenceWarnings`. -/
def checkFileReferenceWarnings (reference : Str) : List Str :=
  let info :=
    match parseFileReference reference with
    | .ok i => some i
    | .error _ => none
  (if strHasChar reference '\\' then
      [str "Use forward slashes (/) for better cross-platform portability"]
    else []) ++
  (match info with
   | some i =>
       if strHasChar i.path ' ' then
         [str "Path contains spaces - ensure proper handling in build systems"]
       else []
   | none => [])

/-! ## Dependency diagnostics (the `getDiagnostics` dependency loop)

The per-entry loop body is embedded as a pure function; the path
arithmetic and I/O it delegates to (`resolveFileReference` against the
manifest directory, `getDisplayPath`, `checkProjectBoundary`,
`localRegistry.resolveReference`, the registry client) are supplied as an
explicit environment.  The second component of each result collects the
`file:` references for which a filesystem probe
(`localRegistry.resolveReference`: directory-existence check plus
manifest read) was performed. -/

/-- `DiagnosticSeverity`. -/
inductive Severity where
  | error
  | warning
  | information
  | hint
deriving Repr, DecidableEq

/-- A diagnostic (severity and message; ranges are not modelled). -/
structure Diag where
  severity : Severity
  message : Str
deriving Repr, DecidableEq

/-- A dependency entry (name token value and version token value). -/
structure DepEntry where
  name : Str
  version : Str
deriving Repr, DecidableEq

/-- Outcome of `localRegistry.resolveReference`. -/
structure ResolvedRef where
  absolutePath : Str
  pathExists : Bool
  hasPackageInfo : Bool
deriving Repr, DecidableEq

/-- The I/O environment of the diagnostics loop. -/
structure DiagEnv where
  resolveRef : Str → Option Str
  displayPath : Str → Str
  withinProject : Str → Bool
  probeRef : Str → ResolvedRef
  pkgExists : Str → Bool
  verExists : Str → Str → Bool
  deprecation : Str → Option Str
  networkValidation : Bool

/-- `\w` membership. -/
def isWordChar (c : Char) : Bool := c.isAlpha || c.isDigit || c = '_'

/-- The `(\+[\w.]+)?$` suffix of the semver regex. -/
def plusTagOpt : Str → Bool
  | [] => true
  | '+' :: r =>
      let tag := r.takeWhile (fun c => isWordChar c || c = '.')
      !(tag = []) && r.drop tag.length = []
  | _ => false

/-- The `(-[\w.]+)?(\+[\w.]+)?$` suffix of the semver regex. -/
def dashTagOpt (rest : Str) : Bool :=
  match rest with
  | [] => true
  | '-' :: r =>
      let tag := r.takeWhile (fun c => isWordChar c || c = '.')
      !(tag = []) && plusTagOpt (r.drop tag.length)
  | _ => plusTagOpt rest

/-- `.test` of `/^\d+\.\d+\.\d+(-[\w.]+)?(\+[\w.]+)?$/`. -/
def semverTest (v : Str) : Bool :=
  match splitDigits v with
  | ([], _) => false
  | (_ :: _, '.' :: r1) =>
      match splitDigits r1 with
      | ([], _) => false
      | (_ :: _, '.' :: r2) =>
          match splitDigits r2 with
          | ([], _) => false
          | (_ :: _, rest) => dashTagOpt rest
      | _ => false
  | _ => false

/-- `isValidVersionFormat`. -/
def isValidVersionFormat (version : Str) : Bool :=
  if version = str "latest" then true
  else if strStarts version (str "file:") then true
  else if strStarts version (str "git+") then true
  else if strStarts version (str "git@") then true
  else if strStarts version (str "https://") then true
  else if strStarts version (str "http://") then true
  else semverTest version

/-- The `file:`-reference branch of the diagnostics loop (steps 1-5). -/
def fileRefDiags (env : DiagEnv) (v : Str) : List Diag × List Str :=
  let fv := validateFileReferenceFormat v
  if !fv.valid then
    ([⟨.error, fv.error.getD (str "Invalid file: reference format")⟩], [])
  else
    let warns := (checkFileReferenceWarnings v).map
      (fun w => (⟨.warning, w⟩ : Diag))
    match parseFileReference v with
    | .error _ => (warns, [])
    | .ok info =>
        if info.isGitProtocol then (warns, [])
        else
          match env.resolveRef v with
          | none => (warns, [])
          | some abs =>
              let boundaryDiags :=
                if env.withinProject abs then []
                else
                  [(⟨.information,
                    str "Path references location outside project directory: " ++
                      env.displayPath abs⟩ : Diag)]
              let resolved := env.probeRef v
              let disp := env.displayPath resolved.absolutePath
              let probeDiags :=
                if !resolved.pathExists then
                  [(⟨.warning, str "Local package path not found: " ++ disp⟩ : Diag)]
                else if !resolved.hasPackageInfo then
                  [(⟨.warning, str "package.json not found in: " ++ disp⟩ : Diag)]
                else []
              (warns ++ boundaryDiags ++ probeDiags, [v])

/-- The network-validation tail of the diagnostics loop. -/
def networkDiags (env : DiagEnv) (dep : DepEntry) : List Diag :=
  if !(env.pkgExists dep.name) then
    [⟨.warning, str "Unknown package: \"" ++ dep.name ++ str "\""⟩]
  else
    let verDiags :=
      if !(env.verExists dep.name dep.version) then
        [(⟨.warning, str "Version \"" ++ dep.version ++
            str "\" not found for package \"" ++ dep.name ++ str "\""⟩ : Diag)]
      else []
    let deprDiags :=
      match env.deprecation dep.name with
      | some msg =>
          if msg = [] then []
          else [(⟨.hint, str "Deprecated: " ++ msg⟩ : Diag)]
      | none => []
    verDiags ++ deprDiags

/-- One iteration of the dependency loop of `getDiagnostics`. -/
def processDep (env : DiagEnv) (dep : DepEntry) : List Diag × List Str :=
  if !(isValidVersionFormat dep.version) then
    ([⟨.warning, str "Invalid version format: \"" ++ dep.version ++ str "\""⟩], [])
  else if isFileReference dep.version then
    fileRefDiags env dep.version
  else if strStarts dep.version (str "git") || strStarts dep.version (str "http") then
    ([], [])
  else if !env.networkValidation then ([], [])
  else (networkDiags env dep, [])

/-- The dependency loop of `getDiagnostics` over the extracted entries
(after the JSON-syntax short-circuit). -/
def getDiagnosticsDeps (env : DiagEnv) (deps : List DepEntry) :
    List Diag × List Str :=
  deps.foldl
    (fun acc dep =>
      let r := processDep env dep
      (acc.1 ++ r.1, acc.2 ++ r.2))
    ([], [])

/-! ## JSON values and `PackageInfo` producers -/

/-- Parsed JSON values (`undefined` is represented by `Option.none` at
use sites). -/
inductive Json where
  | null
  | bool (b : Bool)
  | num (n : Int)
  | str (s : Str)
  | arr (items : List Json)
  | obj (fields : List (Str × Json))
deriving Repr

/-- Property lookup in an object's field list; on duplicate keys the last
binding wins, as after `JSON.parse`. -/
def jsonFieldsGet : List (Str × Json) → Str → Option Json
  | [], _ => none
  | (k', v) :: rest, k =>
      match jsonFieldsGet rest k with
      | some r => some r
      | none => if k' = k then some v else none

/-- `j[k]` / `j.k`: property access (`undefined` on arrays and primitives). -/
def getField : Json → Str → Option Json
  | .obj fs, k => jsonFieldsGet fs k
  | _, _ => none

/-- JavaScript falsiness of a defined JSON value. -/
def jsFalsy : Json → Bool
  | .null => true
  | .bool b => !b
  | .num n => n = 0
  | .str s => s = []
  | _ => false

/-- `typeof v === "object"` for a defined, non-null-checked value
(objects and arrays; `null` is screened out by the falsiness check). -/
def isJsObject : Json → Bool
  | .obj _ => true
  | .arr _ => true
  | .null => true
  | _ => false

/-- `a || b` on possibly-undefined JSON values. -/
def jsOr (a b : Option Json) : Option Json :=
  match a with
  | some v => if jsFalsy v then b else some v
  | none => b

/-- A produced `PackageInfo` record.  Each field holds the raw JavaScript
value assigned by the producer (`none` = `undefined`); the TypeScript
type promises strings for `name`/`version` but the producers do not all
enforce that. -/
structure PackageRecord where
  name : Option Json
  version : Option Json
  displayName : Option Json
  description : Option Json
  unity : Option Json
  unityRelease : Option Json
  dependencies : Option Json
  keywords : Option Json
  author : Option Json
  documentationUrl : Option Json
  changelogUrl : Option Json
  licensesUrl : Option Json
deriving Repr

/-- `typeof v === "string" ? v : undefined`. -/
def strField (j : Json) (k : Str) : Option Json :=
  match getField j k with
  | some (.str s) => some (.str s)
  | _ => none

/-- `typeof j[k] === "string"`. -/
def hasStrField (j : Json) (k : Str) : Bool :=
  match getField j k with
  | some (.str _) => true
  | _ => false

/-- `buildPackageInfo` from `localPackage.ts`: rejects any record whose
`name` or `version` is not a string. -/
def buildPackageInfo (json : Json) : Option PackageRecord :=
  if jsFalsy json || !(isJsObject json) then none
  else
    match getField json (str "name"), getField json (str "version") with
    | some (.str n), some (.str v) =>
        some
          { name := some (.str n), version := some (.str v),
            displayName := strField json (str "displayName"),
            description := strField json (str "description"),
            unity := strField json (str "unity"),
            unityRelease := strField json (str "unityRelease"),
            dependencies := getField json (str "dependencies"),
            keywords :=
              match getField json (str "keywords") with
              | some (.arr xs) => some (.arr xs)
              | _ => none,
            author := getField json (str "author"),
            documentationUrl := strField json (str "documentationUrl"),
            changelogUrl := strField json (str "changelogUrl"),
            licensesUrl := strField json (str "licensesUrl") }
    | _, _ => none

/-- `NpmRegistryClient.parsePackageEntry`: builds a `PackageInfo` from an
all-packages-endpoint entry unconditionally, substituting `"0.0.0"` when
`dist-tags.latest` is missing or falsy, and passing `name` through. -/
def parsePackageEntry (pkg : Json) : PackageRecord :=
  let latest := (getField pkg (str "dist-tags")).bind (fun dt => getField dt (str "latest"))
  let versionInfo : Option Json :=
    match latest with
    | some lv =>
        if jsFalsy lv then none
        else
          match lv with
          | .str s => (getField pkg (str "versions")).bind (fun vs => getField vs s)
          | _ => none
    | none => none
  { name := getField pkg (str "name"),
    version := some
      (match latest with
        | some lv => if jsFalsy lv then .str (str "0.0.0") else lv
        | none => .str (str "0.0.0")),
    displayName := versionInfo.bind (fun vi => getField vi (str "displayName")),
    description := jsOr (getField pkg (str "description"))
      (versionInfo.bind (fun vi => getField vi (str "description"))),
    unity := versionInfo.bind (fun vi => getField vi (str "unity")),
    unityRelease := versionInfo.bind (fun vi => getField vi (str "unityRelease")),
    dependencies := versionInfo.bind (fun vi => getField vi (str "dependencies")),
    keywords := versionInfo.bind (fun vi => getField vi (str "keywords")),
    author := versionInfo.bind (fun vi => getField vi (str "author")),
    documentationUrl := versionInfo.bind (fun vi => getField vi (str "documentationUrl")),
    changelogUrl := versionInfo.bind (fun vi => getField vi (str "changelogUrl")),
    licensesUrl := versionInfo.bind (fun vi => getField vi (str "licensesUrl")) }

/-- The record built by `UnityEditorRegistryClient.readPackageJson` after
a successful parse: every field is passed through unvalidated. -/
def readPackageJsonMap (json : Json) : PackageRecord :=
  { name := getField json (str "name"),
    version := getField json (str "version"),
    displayName := getField json (str "displayName"),
    description := getField json (str "description"),
    unity := getField json (str "unity"),
    unityRelease := getField json (str "unityRelease"),
    dependencies := getField json (str "dependencies"),
    keywords := getField json (str "keywords"),
    author := getField json (str "author"),
    documentationUrl := getField json (str "documentationUrl"),
    changelogUrl := getField json (str "changelogUrl"),
    licensesUrl := getField json (str "licensesUrl") }

/-! ## Hosted-registry client (`NpmRegistryClient`) error handling

`fetchJson` is embedded as an explicit outcome: either the parsed JSON
response or a `RegistryError` code.  The cache read that precedes the
fetch is an explicit argument. -/

/-- `RegistryErrorCode`. -/
inductive RegistryErrorCode where
  | networkError
  | notFound
  | parseError
  | timeout
  | rateLimited
  | unauthorized
deriving Repr, DecidableEq

/-- `NpmRegistryClient.parsePackageDetail` (a well-formed `dist-tags`
object is assumed, as the TypeScript response type promises; a malformed
one would throw in JavaScript and is outside the model). -/
def parsePackageDetail (data : Json) : Option PackageRecord :=
  match (getField data (str "dist-tags")).bind (fun dt => getField dt (str "latest")) with
  | some (.str latest) =>
      match (getField data (str "versions")).bind (fun vs => getField vs latest) with
      | none => none
      | some vi =>
          if jsFalsy vi then none
          else
            some
              { name := getField data (str "name"),
                version := some (.str latest),
                displayName := getField vi (str "displayName"),
                description := jsOr (getField data (str "description"))
                  (getField vi (str "description")),
                unity := getField vi (str "unity"),
                unityRelease := getField vi (str "unityRelease"),
                dependencies := getField vi (str "dependencies"),
                keywords := getField vi (str "keywords"),
                author := getField vi (str "author"),
                documentationUrl := getField vi (str "documentationUrl"),
                changelogUrl := getField vi (str "changelogUrl"),
                licensesUrl := getField vi (str "licensesUrl") }
  | _ => none

/-- `NpmRegistryClient.getPackageInfo`: cached value wins; a `NOT_FOUND`
fetch failure becomes `null`; every other `RegistryError` is re-thrown. -/
def npmGetPackageInfo (cached : Option PackageRecord)
    (fetched : Except RegistryErrorCode Json) :
    Except RegistryErrorCode (Option PackageRecord) :=
  match cached with
  | some c => .ok (some c)
  | none =>
      match fetched with
      | .ok data => .ok (parsePackageDetail data)
      | .error e => if e = .notFound then .ok none else .error e

/-- `Object.keys` of a JSON value (defined object assumed at call sites). -/
def objKeys : Json → List Str
  | .obj fs => fs.map (fun p => p.1)
  | _ => []

/-- `NpmRegistryClient.getVersions`: cached value wins; a `NOT_FOUND`
fetch failure becomes `[]`; every other `RegistryError` is re-thrown. -/
def npmGetVersions (cached : Option (List Str))
    (fetched : Except RegistryErrorCode Json) :
    Except RegistryErrorCode (List Str) :=
  match cached with
  | some v => .ok v
  | none =>
      match fetched with
      | .ok data =>
          .ok (sortVersionsDescending (objKeys ((getField data (str "versions")).getD .null)))
      | .error e => if e = .notFound then .ok [] else .error e

/-! ## Orchestrator package-list merge (`RegistryService.getAllPackages`)

The cache-miss refresh step: the two hosted fetches are explicit
outcomes (`.catch(() => [])` turns a failure into the empty list), and
the merge folds `[...openUpmPackages, ...unityPackages]` into a
name-keyed `Map`.  The merge is generic in the entry type with an
explicit key function (`pkg.name` at the call site). -/

/-- `promise.catch(() => [])`. -/
def catchToEmpty {V : Type} : Except Unit (List V) → List V
  | .ok l => l
  | .error _ => []

/-- The last element of a list satisfying a predicate (the binding that
survives repeated `Map.set` with the same key). -/
def lastMatch {V : Type} (p : V → Bool) : List V → Option V
  | [] => none
  | a :: rest =>
      match lastMatch p rest with
      | some v => some v
      | none => if p a then some a else none

/-- The name-keyed merge `Map` after the fold over
`[...openUpmPackages, ...unityPackages]`. -/
def getAllPackagesMap {V : Type} (keyOf : V → Str)
    (unityRes openUpmRes : Except Unit (List V)) : List (Str × V) :=
  (catchToEmpty openUpmRes ++ catchToEmpty unityRes).foldl
    (fun m p => mapSet m (keyOf p) p) []

/-- `RegistryService.getAllPackages` refresh result:
`Array.from(packageMap.values())`. -/
def getAllPackagesResult {V : Type} (keyOf : V → Str)
    (unityRes openUpmRes : Except Unit (List V)) : List V :=
  (getAllPackagesMap keyOf unityRes openUpmRes).map (fun p => p.2)

/-! ## Local-editor registry (`registries/unityEditorRegistry.ts`)

Path arithmetic and filesystem reads are supplied as an explicit
environment; the second component of `editorGetPackageInfo` records every
package directory whose `package.json` was read. -/

/-- The Windows-forbidden characters rejected by `/[<>:"|?*]/`. -/
def forbiddenNameChars : List Char := ['<', '>', ':', '"', '|', '?', '*']

/-- First character class `[a-z0-9-~]` of the package-name grammar. -/
def isNameStartChar (c : Char) : Bool :=
  ('a' ≤ c && c ≤ 'z') || c.isDigit || c = '-' || c = '~'

/-- Continuation class `[a-z0-9-._~]` of the package-name grammar. -/
def isNameTailChar (c : Char) : Bool :=
  isNameStartChar c || c = '.' || c = '_'

/-- `[a-z0-9-~][a-z0-9-._~]*` (one segment of the name grammar). -/
def validBody : Str → Bool
  | [] => false
  | c :: rest => isNameStartChar c && rest.all isNameTailChar

/-- Split at the first occurrence of a character. -/
def splitAtFirst (sep : Char) : Str → Option (Str × Str)
  | [] => none
  | c :: r =>
      if c = sep then some ([], r)
      else (splitAtFirst sep r).map (fun p => (c :: p.1, p.2))

/-- `.test` of `/^(@[a-z0-9-~][a-z0-9-._~]*\/)?[a-z0-9-~][a-z0-9-._~]*$/`. -/
def validNamePattern (s : Str) : Bool :=
  match s with
  | '@' :: rest =>
      match splitAtFirst '/' rest with
      | some (scopePart, mainPart) => validBody scopePart && validBody mainPart
      | none => false
  | _ => validBody s

/-- `isValidPackageName`: length bound, traversal/denylist rejection,
then the allow-list grammar. -/
def isValidPackageName (packageName : Str) : Bool :=
  if packageName = [] || packageName.length > 214 then false
  else if strIncludes packageName (str "..") ||
      strStarts packageName (str "/") ||
      strStarts packageName (str "\\") ||
      packageName.any (fun c => c ∈ forbiddenNameChars) then false
  else validNamePattern packageName

/-- Path arithmetic and filesystem oracle of the editor registry. -/
structure EditorFs where
  builtInPath : Str → Str
  joinPath : Str → Str → Str
  withinBase : Str → Str → Bool
  readPkgJson : Str → Option PackageRecord

/-- The installation loop of `UnityEditorRegistryClient.getPackageInfo`:
`isPathWithinBase` failure returns `null` immediately; otherwise the
package directory's `package.json` is read (and recorded). -/
def editorGetPackageInfoLoop (fs : EditorFs) (name : Str) :
    List Str → Option PackageRecord × List Str
  | [] => (none, [])
  | editorPath :: rest =>
      let base := fs.builtInPath editorPath
      let dir := fs.joinPath base name
      if !(fs.withinBase dir base) then (none, [])
      else
        match fs.readPkgJson dir with
        | some info => (some info, [dir])
        | none =>
            let r := editorGetPackageInfoLoop fs name rest
            (r.1, dir :: r.2)

/-- `UnityEditorRegistryClient.getPackageInfo`: name validation first,
then the cache, then the installation loop.  The second component lists
every directory whose `package.json` was read. -/
def editorGetPackageInfo (fs : EditorFs) (cacheHit : Option PackageRecord)
    (installations : List Str) (packageName : Str) :
    Option PackageRecord × List Str :=
  if !(isValidPackageName packageName) then (none, [])
  else
    match cacheHit with
    | some c => (some c, [])
    | none => editorGetPackageInfoLoop fs packageName installations

/-! ## Map lemmas -/

theorem mapLookup_mapSet {V : Type} (m : List (Str × V)) (k0 k : Str) (v : V) :
    mapLookup (mapSet m k0 v) k = if k0 = k then some v else mapLookup m k := by
  induction m with
  | nil =>
      by_cases h : k0 = k <;> simp [mapSet, mapLookup, h]
  | cons hd tl ih =>
      obtain ⟨k', v'⟩ := hd
      by_cases h1 : k' = k0
      · subst h1
        by_cases h2 : k' = k <;> simp [mapSet, mapLookup, h2]
      · by_cases h2 : k' = k
        · subst h2
          have hne : ¬ k0 = k' := fun h => h1 h.symm
          simp [mapSet, mapLookup, h1, hne]
        · simp [mapSet, mapLookup, h1, h2, ih]

theorem mapLookup_eq_none_of_not_mem {V : Type} (m : List (Str × V)) (k : Str)
    (h : k ∉ m.map Prod.fst) : mapLookup m k = none := by
  induction m with
  | nil => rfl
  | cons hd tl ih =>
      obtain ⟨k', v'⟩ := hd
      simp only [List.map_cons, List.mem_cons] at h
      push_neg at h
      have : ¬ k' = k := fun hE => h.1 hE.symm
      simp [mapLookup, this, ih h.2]

theorem mem_keys_of_mem_keys_filter {V : Type} (m : List (Str × V))
    (p : Str × V → Bool) (k : Str) (h : k ∈ (m.filter p).map Prod.fst) :
    k ∈ m.map Prod.fst := by
  simp only [List.mem_map] at h ⊢
  obtain ⟨pair, hmem, hfst⟩ := h
  exact ⟨pair, (List.mem_filter.mp hmem).1, hfst⟩

theorem mapLookup_cachePrune {V : Type} (store : CacheStore V) (now : Nat) (k : Str)
    (hnd : (store.map Prod.fst).Nodup) :
    mapLookup (cachePrune store now) k =
      match mapLookup store k with
      | some e => if now > e.expiresAt then none else some e
      | none => none := by
  induction store with
  | nil => simp [cachePrune, mapLookup]
  | cons hd tl ih =>
      obtain ⟨k', e⟩ := hd
      simp only [List.map_cons, List.nodup_cons] at hnd
      by_cases hk : k' = k
      · subst hk
        by_cases hex : now > e.expiresAt
        · have hnone : mapLookup (cachePrune tl now) k' = none := by
            apply mapLookup_eq_none_of_not_mem
            intro hmem
            exact hnd.1 (mem_keys_of_mem_keys_filter tl _ k' hmem)
          simp [cachePrune, mapLookup, hex, List.filter] at hnone ⊢
          simp [hnone]
        · simp [cachePrune, mapLookup, hex, List.filter]
      · by_cases hex : now > e.expiresAt
        · have := ih hnd.2
          simp only [cachePrune, List.filter] at this ⊢
          simp [hex, mapLookup, hk, this]
        · have := ih hnd.2
          simp only [cachePrune, List.filter] at this ⊢
          simp [hex, mapLookup, hk, this]

/-! ## C6: TTL cache semantics -/

/-- C6 counterexample: the claim says `get` returns absence at every time
with elapsed ≥ ttl, but at exactly `now = setTime + ttl` (elapsed = ttl)
the code's `Date.now() > expiresAt` test is false and the stored value is
still returned. -/
theorem cache_expiry_boundary_counterexample :
    (cacheGet (cacheSet ([] : CacheStore Nat) (str "k") 42 5 0) (str "k") (0 + 5)).1
      = some 42 ∧ ¬ (0 + 5 < 0 + 5) := by
  exact ⟨by decide, by decide⟩

/-- C6 (amended): `get` on an unset key is absent; after `set(k, v, ttl)`
at time `t0`, `get(k)` at time `t` returns `v` whenever `t ≤ t0 + ttl`
(in particular strictly before the ttl has elapsed) and absence whenever
`t > t0 + ttl` (strictly after expiry, not at it); `prune` removes
exactly the entries with `now > expiresAt` and leaves every other
entry's value unchanged. -/
theorem cache_ttl_semantics {V : Type} :
    (∀ (k : Str) (now : Nat), (cacheGet ([] : CacheStore V) k now).1 = none) ∧
    (∀ (store : CacheStore V) (k : Str) (v : V) (ttl t0 t : Nat),
      t ≤ t0 + ttl → (cacheGet (cacheSet store k v ttl t0) k t).1 = some v) ∧
    (∀ (store : CacheStore V) (k : Str) (v : V) (ttl t0 t : Nat),
      t0 + ttl < t → (cacheGet (cacheSet store k v ttl t0) k t).1 = none) ∧
    (∀ (store : CacheStore V) (now : Nat) (k : Str),
      (store.map Prod.fst).Nodup →
      mapLookup (cachePrune store now) k =
        match mapLookup store k with
        | some e => if now > e.expiresAt then none else some e
        | none => none) := by
  refine ⟨?_, ?_, ?_, ?_⟩
  · intro k now
    simp [cacheGet, mapLookup]
  · intro store k v ttl t0 t ht
    simp only [cacheGet, cacheSet, mapLookup_mapSet, if_pos rfl]
    have : ¬ t > t0 + ttl := by omega
    simp [this]
  · intro store k v ttl t0 t ht
    simp only [cacheGet, cacheSet, mapLookup_mapSet, if_pos rfl]
    have : t > t0 + ttl := ht
    simp [this]
  · intro store now k hnd
    exact mapLookup_cachePrune store now k hnd

/-- Witness for the hypotheses of `cache_ttl_semantics`. -/
theorem cache_ttl_semantics_witness :
    (cacheGet (cacheSet ([] : CacheStore Nat) (str "k") 7 10 100) (str "k") 105).1
        = some 7 ∧
    (cacheGet (cacheSet ([] : CacheStore Nat) (str "k") 7 10 100) (str "k") 111).1
        = none ∧
    mapLookup (cachePrune [((str "k"), (⟨7, 3⟩ : CacheEntry Nat))] 9) (str "k")
        = none := by
  refine ⟨?_, ?_, ?_⟩
  · exact (cache_ttl_semantics (V := Nat)).2.1 [] (str "k") 7 10 100 105 (by decide)
  · exact (cache_ttl_semantics (V := Nat)).2.2.1 [] (str "k") 7 10 100 111 (by decide)
  · have h := (cache_ttl_semantics (V := Nat)).2.2.2
      [((str "k"), (⟨7, 3⟩ : CacheEntry Nat))] 9 (str "k") (by decide)
    rw [h]
    decide

/-! ## C7: version comparator lemmas -/

theorem dChar_isDigit (d : Nat) : (dChar d).isDigit = true := by
  unfold dChar
  match d with
  | 0 | 1 | 2 | 3 | 4 | 5 | 6 | 7 | 8 | 9 => decide
  | n + 10 =>
      rw [List.getD_eq_default]
      · decide
      · simp

theorem natDigitsAux_digits (fuel n : Nat) (c : Char)
    (h : c ∈ natDigitsAux fuel n) : c.isDigit = true := by
  induction fuel generalizing n with
  | zero => simp [natDigitsAux] at h
  | succ k ih =>
      unfold natDigitsAux at h
      by_cases hn : n = 0
      · simp [hn] at h
      · simp only [hn, if_false, List.mem_append, List.mem_singleton] at h
        rcases h with h | h
        · exact ih _ h
        · subst h
          exact dChar_isDigit _

theorem natDigitsAux_ne_nil (fuel n : Nat) (hn : n ≠ 0) (hf : 0 < fuel) :
    natDigitsAux fuel n ≠ [] := by
  match fuel, hf with
  | k + 1, _ =>
      unfold natDigitsAux
      simp [hn]

theorem natDigitsStr_digits (n : Nat) (c : Char) (h : c ∈ natDigitsStr n) :
    c.isDigit = true := by
  unfold natDigitsStr at h
  by_cases hn : n = 0
  · simp [hn] at h
    subst h
    decide
  · simp only [hn, if_false] at h
    exact natDigitsAux_digits n n c h

theorem natDigitsStr_ne_nil (n : Nat) : natDigitsStr n ≠ [] := by
  unfold natDigitsStr
  by_cases hn : n = 0
  · simp [hn]
  · simp only [hn, if_false]
    exact natDigitsAux_ne_nil n n hn (Nat.pos_of_ne_zero hn)

theorem dropWhile_eq_self_of_none {p : Char → Bool} (l : Str)
    (h : ∀ c ∈ l, p c = false) : l.dropWhile p = l := by
  cases l with
  | nil => rfl
  | cons c r =>
      rw [List.dropWhile_cons]
      simp [h c (by simp)]

theorem jsTrim_eq_self (l : Str) (h : ∀ c ∈ l, jsWs c = false) : jsTrim l = l := by
  unfold jsTrim
  rw [dropWhile_eq_self_of_none l h]
  rw [dropWhile_eq_self_of_none l.reverse (fun c hc => h c (List.mem_reverse.mp hc))]
  exact List.reverse_reverse l

theorem isDigit_not_ws (c : Char) (h : c.isDigit = true) : jsWs c = false := by
  cases hc : jsWs c with
  | false => rfl
  | true =>
      exfalso
      unfold jsWs at hc
      simp only [Bool.or_eq_true, decide_eq_true_eq] at hc
      rcases hc with ((((h1 | h1) | h1) | h1) | h1) | h1 <;> subst h1 <;>
        exact absurd h (by decide)

theorem strStarts_cons (c : Char) (cs : Str) (p : Char) (ps : Str) :
    strStarts (c :: cs) (p :: ps) = ((c = p : Bool) && strStarts cs ps) := rfl

theorem strStarts_nil_right (s : Str) : strStarts s [] = true := by
  cases s <;> rfl

theorem strStarts_append (p r : Str) : strStarts (p ++ r) p = true := by
  induction p with
  | nil => simpa using strStarts_nil_right r
  | cons c cs ih => simp [strStarts_cons, ih]

theorem strStarts_single_ne (c : Char) (cs : Str) (p : Char) (h : ¬ c = p) :
    strStarts (c :: cs) [p] = false := by
  simp [strStarts_cons, h]

theorem strStarts_zero_letter (l : Str) (x : Char) (hx : x.isDigit = false)
    (h : ∀ c ∈ l, c.isDigit = true) : strStarts l ['0', x] = false := by
  match l with
  | [] => rfl
  | [c] => simp [strStarts]
  | c1 :: c2 :: r =>
      have h2 : c2.isDigit = true := h c2 (by simp)
      have hne : ¬ (c2 = x) := by
        intro he
        subst he
        rw [h2] at hx
        exact Bool.noConfusion hx
      simp [strStarts_cons, hne]

theorem splitDigits_all (l : Str) (h : ∀ c ∈ l, c.isDigit = true) :
    splitDigits l = (l, []) := by
  induction l with
  | nil => rfl
  | cons c r ih =>
      unfold splitDigits
      rw [ih (fun c hc => h c (by simp [hc]))]
      simp [h c (by simp)]

theorem parseDigitsAux_isSome (l : Str) (h : ∀ c ∈ l, c.isDigit = true)
    (acc : Nat) : (parseDigitsAux acc l).isSome = true := by
  induction l generalizing acc with
  | nil => rfl
  | cons c r ih =>
      unfold parseDigitsAux
      rw [if_pos (h c (by simp))]
      exact ih (fun c hc => h c (by simp [hc])) _

theorem parseDigits_isSome (l : Str) (hne : l ≠ [])
    (h : ∀ c ∈ l, c.isDigit = true) : (parseDigits l).isSome = true := by
  match l, hne with
  | c :: r, _ =>
      show (parseDigitsAux 0 (c :: r)).isSome = true
      exact parseDigitsAux_isSome (c :: r) h 0

theorem jsDecimal_digits_isSome (l : Str) (hne : l ≠ [])
    (h : ∀ c ∈ l, c.isDigit = true) : (jsDecimal l).isSome = true := by
  unfold jsDecimal
  rw [splitDigits_all l h]
  show (match parseDigits l with
    | none => none
    | some m =>
        if ([] : Str) = [] then some (Int.ofNat m)
        else if strStarts ([] : Str) (str "e") || strStarts ([] : Str) (str "E") then
          expSuffix m (([] : Str).drop 1)
        else none).isSome = true
  have hs := parseDigits_isSome l hne h
  cases hp : parseDigits l with
  | none => rw [hp] at hs; exact Bool.noConfusion hs
  | some m => simp

theorem jsNumberBody_digits_isSome (l : Str) (hne : l ≠ [])
    (h : ∀ c ∈ l, c.isDigit = true) : (jsNumberBody l).isSome = true := by
  unfold jsNumberBody
  rw [show str "0x" = ['0', 'x'] from rfl, show str "0X" = ['0', 'X'] from rfl,
    show str "0o" = ['0', 'o'] from rfl, show str "0O" = ['0', 'O'] from rfl,
    show str "0b" = ['0', 'b'] from rfl, show str "0B" = ['0', 'B'] from rfl]
  rw [strStarts_zero_letter l 'x' (by decide) h, strStarts_zero_letter l 'X' (by decide) h,
    strStarts_zero_letter l 'o' (by decide) h, strStarts_zero_letter l 'O' (by decide) h,
    strStarts_zero_letter l 'b' (by decide) h, strStarts_zero_letter l 'B' (by decide) h]
  simp only [Bool.or_self]
  rw [if_neg (by decide), if_neg (by decide), if_neg (by decide)]
  exact jsDecimal_digits_isSome l hne h

theorem jsNumber_digits_isSome (l : Str) (hne : l ≠ [])
    (h : ∀ c ∈ l, c.isDigit = true) : (jsNumber l).isSome = true := by
  unfold jsNumber
  rw [jsTrim_eq_self l (fun c hc => isDigit_not_ws c (h c hc))]
  match l, hne with
  | c :: r, _ =>
      have hc : c.isDigit = true := h c (by simp)
      have hplus : ¬ c = '+' := by
        intro he; subst he; exact absurd hc (by decide)
      have hminus : ¬ c = '-' := by
        intro he; subst he; exact absurd hc (by decide)
      rw [if_neg (by simp : ¬ (c :: r) = [])]
      rw [show str "+" = ['+'] from rfl, show str "-" = ['-'] from rfl]
      rw [strStarts_single_ne c r '+' hplus, strStarts_single_ne c r '-' hminus]
      rw [if_neg (by decide), if_neg (by decide)]
      exact jsNumberBody_digits_isSome (c :: r) (by simp) h

theorem jsNumber_jsStringOfInt_isSome (n : Int) :
    (jsNumber (jsStringOfInt n)).isSome = true := by
  cases n with
  | ofNat m =>
      exact jsNumber_digits_isSome _ (natDigitsStr_ne_nil m)
        (fun c hc => natDigitsStr_digits m c hc)
  | negSucc m =>
      show (jsNumber ('-' :: natDigitsStr (m + 1))).isSome = true
      unfold jsNumber
      have hws : ∀ c ∈ '-' :: natDigitsStr (m + 1), jsWs c = false := by
        intro c hc
        rcases List.mem_cons.mp hc with h | h
        · subst h; decide
        · exact isDigit_not_ws c (natDigitsStr_digits (m + 1) c h)
      rw [jsTrim_eq_self _ hws]
      rw [if_neg (by simp : ¬ ('-' :: natDigitsStr (m + 1)) = [])]
      rw [show str "+" = ['+'] from rfl, show str "-" = ['-'] from rfl]
      rw [strStarts_single_ne '-' _ '+' (by decide)]
      rw [if_neg (by decide)]
      rw [show strStarts ('-' :: natDigitsStr (m + 1)) ['-'] = true by
        rw [strStarts_cons]
        simp [strStarts_nil_right]]
      rw [if_pos rfl]
      simp only [List.drop_one, List.tail_cons]
      have hb2 := jsNumberBody_digits_isSome (natDigitsStr (m + 1))
        (natDigitsStr_ne_nil (m + 1)) (fun c hc => natDigitsStr_digits (m + 1) c hc)
      cases hb : jsNumberBody (natDigitsStr (m + 1)) with
      | none => rw [hb] at hb2; exact Bool.noConfusion hb2
      | some v => rfl

theorem comparePartsStep_self (a : VersionPart) : comparePartsStep a a = none := by
  cases a <;> simp [comparePartsStep]

theorem comparePartsStep_str_num (s : Str) (n : Int) (h : jsNumber s = none) :
    comparePartsStep (.str s) (.num n) = some (-1) := by
  unfold comparePartsStep
  have hne : ¬ s = jsStringOfInt n := by
    intro he
    have hs := jsNumber_jsStringOfInt_isSome n
    rw [← he, h] at hs
    exact Bool.noConfusion hs
  simp [partToStr, hne]

theorem comparePartsStep_num_str (s : Str) (n : Int) (h : jsNumber s = none) :
    comparePartsStep (.num n) (.str s) = some 1 := by
  unfold comparePartsStep
  have hne : ¬ jsStringOfInt n = s := by
    intro he
    have := jsNumber_jsStringOfInt_isSome n
    rw [he, h] at this
    exact Bool.noConfusion this
  simp [partToStr, hne]

theorem comparePartsAux_prefix (c : List VersionPart) (fuel : Nat)
    (pa pb : List VersionPart) :
    comparePartsAux (c.length + fuel) (c ++ pa) (c ++ pb) =
      comparePartsAux fuel pa pb := by
  induction c with
  | nil => simp
  | cons a c' ih =>
      have hl : (a :: c').length + fuel = (c'.length + fuel) + 1 := by
        simp [List.length_cons]
        omega
      rw [hl]
      show comparePartsAux ((c'.length + fuel) + 1) (a :: (c' ++ pa)) (a :: (c' ++ pb)) =
        comparePartsAux fuel pa pb
      rw [show comparePartsAux ((c'.length + fuel) + 1) (a :: (c' ++ pa)) (a :: (c' ++ pb)) =
          comparePartsAux (c'.length + fuel) (c' ++ pa) (c' ++ pb) by
        simp only [comparePartsAux, List.headD_cons, comparePartsStep_self, List.tail_cons]]
      exact ih

/-! ## C7: the comparator theorem -/

/-- C7: `compareVersions("1.0.0-alpha", "1.0.0") < 0`,
`compareVersions("1.0.0-preview.2", "1.0.0-preview") > 0`,
`compareVersions("1.0", "1.0.0") == 0`; and at any position where one
part is a string (a piece on which `Number` gives `NaN`) and the other a
number, the string side compares lower. -/
theorem compare_versions_semantics :
    compareVersions (str "1.0.0-alpha") (str "1.0.0") < 0 ∧
    compareVersions (str "1.0.0-preview.2") (str "1.0.0-preview") > 0 ∧
    compareVersions (str "1.0") (str "1.0.0") = 0 ∧
    (∀ (c ra rb : List VersionPart) (s : Str) (n : Int), jsNumber s = none →
      compareParts (c ++ VersionPart.str s :: ra) (c ++ VersionPart.num n :: rb) < 0 ∧
      compareParts (c ++ VersionPart.num n :: rb) (c ++ VersionPart.str s :: ra) > 0) := by
  refine ⟨by decide, by decide, by decide, ?_⟩
  intro c ra rb s n h
  have hmax : ∀ (x y : Nat),
      max (c.length + (x + 1)) (c.length + (y + 1)) = c.length + (max x y + 1) := by
    intro x y
    omega
  constructor
  · show compareParts (c ++ VersionPart.str s :: ra) (c ++ VersionPart.num n :: rb) < 0
    unfold compareParts
    simp only [List.length_append, List.length_cons]
    rw [hmax ra.length rb.length,
      comparePartsAux_prefix c (max ra.length rb.length + 1)]
    simp only [comparePartsAux, List.headD_cons, comparePartsStep_str_num s n h]
    decide
  · show compareParts (c ++ VersionPart.num n :: rb) (c ++ VersionPart.str s :: ra) > 0
    unfold compareParts
    simp only [List.length_append, List.length_cons]
    rw [hmax rb.length ra.length,
      comparePartsAux_prefix c (max rb.length ra.length + 1)]
    simp only [comparePartsAux, List.headD_cons, comparePartsStep_num_str s n h]
    decide

/-- Witness for the hypothesis of `compare_versions_semantics`. -/
theorem compare_versions_semantics_witness :
    compareParts [VersionPart.str (str "alpha")] [VersionPart.num 5] < 0 ∧
    compareParts [VersionPart.num 5] [VersionPart.str (str "alpha")] > 0 := by
  have h := compare_versions_semantics.2.2.2 [] [] [] (str "alpha") 5 (by decide)
  exact ⟨h.1, h.2⟩

/-! ## C1: anchor search of the context classifier -/

theorem scanFirst_eq_head_scanAll {α : Type} (m : Str → Option α) (s : Str) :
    scanFirst m s = (scanAll m s).head? := by
  induction s with
  | nil =>
      cases hm : m [] <;> simp [scanFirst, scanAll, hm]
  | cons c rest ih =>
      cases hm : m (c :: rest) with
      | some a => simp [scanFirst, scanAll, hm]
      | none => simp [scanFirst, scanAll, hm, ih, List.head?_map]

/-- C1 counterexample: with two occurrences of the anchor before the
cursor, the code classifies from the *first* occurrence (here: outside,
because its braces close), while the classification the claim describes
(from the last occurrence) says inside. -/
theorem deps_anchor_last_counterexample :
    (scanAll matchDepsAt
        ((str "\x7b\"dependencies\":\x7b\x7d,\"a\":\x7b\"dependencies\":\x7b").take 40)).length = 2 ∧
    (isInsideDependencies (str "\x7b\"dependencies\":\x7b\x7d,\"a\":\x7b\"dependencies\":\x7b") 40).inside
      = false ∧
    (specAnchorLastInsideDependencies
        (str "\x7b\"dependencies\":\x7b\x7d,\"a\":\x7b\"dependencies\":\x7b") 40).inside = true := by
  refine ⟨by decide, by decide, by decide⟩

/-- C1 (amended): the anchor search selects the lexically *first*
occurrence of `"dependencies":{` before the cursor (`String.match` with
a non-global regex), and the inside/outside classification is the brace
count taken from that first occurrence. -/
theorem deps_anchor_first_occurrence (t : Str) (offset : Nat) :
    isInsideDependencies t offset =
      match (scanAll matchDepsAt (t.take offset)).head? with
      | none => ⟨false, 0⟩
      | some (i, len) => ⟨decide (countBraces t (i + len) offset > 0), i + len⟩ := by
  unfold isInsideDependencies
  simp only [scanFirst_eq_head_scanAll]

/-! ## C2: key-versus-value classification inside `dependencies` -/

theorem colonPatternTest_imp_colon (line : Str) (h : colonPatternTest line = true) :
    strHasChar line ':' = true := by
  unfold colonPatternTest at h
  induction line with
  | nil =>
      exfalso
      revert h
      decide
  | cons c rest ih =>
      unfold scanFirst at h
      cases hc : colonEndAt (c :: rest) with
      | true =>
          have hcolon : c = ':' := by
            unfold colonEndAt at hc
            have hand := (Bool.and_eq_true _ _).mp hc
            exact of_decide_eq_true hand.1
          subst hcolon
          simp [strHasChar]
      | false =>
          rw [hc] at h
          simp at h
          have hrest := ih h
          simp only [strHasChar, List.any_cons] at hrest ⊢
          simp [hrest]

/-- C2 counterexample: the cursor sits inside `dependencies` on a line
that contains a colon (a version is being typed after `"com.unity.test":`),
yet the classifier returns `DependenciesKey`, not `DependenciesValue`:
the code additionally requires the line to *end* with `:`, optional
whitespace and an optional opening quote. -/
theorem classify_value_colon_counterexample :
    (isInsideScopedRegistries
        (str "\x7b\n  \"dependencies\": \x7b\n    \"com.unity.test\": \"1.0") 48).inObject
      = false ∧
    (isInsideDependencies
        (str "\x7b\n  \"dependencies\": \x7b\n    \"com.unity.test\": \"1.0") 48).inside
      = true ∧
    isInValuePosition
        ((str "\x7b\n  \"dependencies\": \x7b\n    \"com.unity.test\": \"1.0").take 48)
      = true ∧
    getJsonContext (str "\x7b\n  \"dependencies\": \x7b\n    \"com.unity.test\": \"1.0") 48
      = .dependenciesKey (str "1.0") := by
  refine ⟨by decide, by decide, by decide, by decide⟩

/-- C2 (amended): with the cursor inside `dependencies` (and not inside a
scoped-registry object), the classifier returns `DependenciesValue` iff
the current line up to the cursor *ends* with a colon followed by
optional whitespace and an optional opening quote (`/:\s*"?$/`) — merely
containing a colon is not enough — with `packageName` the first quoted
key followed by a colon on that line and `partial` the text inside the
trailing open quote; otherwise it returns `DependenciesKey` with
`partial` from the trailing-quote regex. -/
theorem classify_inside_dependencies (t : Str) (offset : Nat)
    (hs : (isInsideScopedRegistries t offset).inObject = false)
    (hd : (isInsideDependencies t offset).inside = true) :
    getJsonContext t offset =
      if colonPatternTest (afterLastNewline (t.take offset)) then
        .dependenciesValue (extractPackageNameFromLine (t.take offset))
          (extractPartialVersion (t.take offset))
      else .dependenciesKey (extractPartialInput (t.take offset)) := by
  unfold getJsonContext
  simp only [hs, hd]
  by_cases hc : colonPatternTest (afterLastNewline (t.take offset)) = true
  · have hv : isInValuePosition (t.take offset) = true := by
      unfold isInValuePosition
      exact colonPatternTest_imp_colon _ hc
    simp [hv, hc]
  · have hc' : colonPatternTest (afterLastNewline (t.take offset)) = false :=
      Bool.eq_false_iff.mpr hc
    simp [hc']

/-- Witness for the hypotheses of `classify_inside_dependencies`. -/
theorem classify_inside_dependencies_witness :
    getJsonContext (str "\x7b\"dependencies\":\x7b\"a\": \"") 23
      = .dependenciesValue (str "dependencies") [] := by
  rw [classify_inside_dependencies (str "\x7b\"dependencies\":\x7b\"a\": \"") 23
    (by decide) (by decide)]
  decide

/-! ## C3: orchestrator package-list merge -/

theorem mapLookup_foldl_mapSet {V : Type} (keyOf : V → Str) (l : List V)
    (m : List (Str × V)) (k : Str) :
    mapLookup (l.foldl (fun acc p => mapSet acc (keyOf p) p) m) k =
      match lastMatch (fun v => decide (keyOf v = k)) l with
      | some v => some v
      | none => mapLookup m k := by
  induction l generalizing m with
  | nil => simp [lastMatch]
  | cons a rest ih =>
      simp only [List.foldl_cons, lastMatch]
      rw [ih]
      cases lastMatch (fun v => decide (keyOf v = k)) rest with
      | some v => rfl
      | none =>
          simp only [mapLookup_mapSet]
          by_cases ha : keyOf a = k <;> simp [ha]

theorem lastMatch_isSome_of_mem {V : Type} (p : V → Bool) (l : List V) (v : V)
    (hm : v ∈ l) (hp : p v = true) : (lastMatch p l).isSome = true := by
  induction l with
  | nil => cases hm
  | cons a rest ih =>
      unfold lastMatch
      cases hl : lastMatch p rest with
      | some w => rfl
      | none =>
          rcases List.mem_cons.mp hm with h | h
          · subst h
            simp [hp]
          · have hrec := ih h
            rw [hl] at hrec
            exact Bool.noConfusion hrec

theorem lastMatch_eq_none {V : Type} (p : V → Bool) (l : List V)
    (h : ∀ v ∈ l, p v = false) : lastMatch p l = none := by
  induction l with
  | nil => rfl
  | cons a rest ih =>
      unfold lastMatch
      rw [ih (fun v hv => h v (by simp [hv]))]
      simp [h a (by simp)]

/-- C3: the whole-package-list refresh inserts the OpenUPM entries first
and the Unity entries second into the name-keyed map, so whenever a name
occurs in the Unity result the Unity entry wins the tie (the map holds
Unity's last entry with that name, never OpenUPM's); a name absent from
the Unity result resolves to OpenUPM's entry; and a hosted source whose
fan-out branch fails contributes exactly zero entries. -/
theorem getAllPackages_merge_semantics {V : Type} (keyOf : V → Str) :
    (∀ openRes : Except Unit (List V),
        getAllPackagesMap keyOf (.error ()) openRes =
          getAllPackagesMap keyOf (.ok []) openRes) ∧
    (∀ unityRes : Except Unit (List V),
        getAllPackagesMap keyOf unityRes (.error ()) =
          getAllPackagesMap keyOf unityRes (.ok [])) ∧
    (∀ (unity openUpm : List V) (k : Str) (v : V), v ∈ unity → keyOf v = k →
        mapLookup (getAllPackagesMap keyOf (.ok unity) (.ok openUpm)) k =
          lastMatch (fun w => decide (keyOf w = k)) unity) ∧
    (∀ (unity openUpm : List V) (k : Str), (∀ v ∈ unity, ¬ keyOf v = k) →
        mapLookup (getAllPackagesMap keyOf (.ok unity) (.ok openUpm)) k =
          lastMatch (fun w => decide (keyOf w = k)) openUpm) := by
  refine ⟨fun _ => rfl, fun _ => rfl, ?_, ?_⟩
  · intro unity openUpm k v hm hk
    unfold getAllPackagesMap
    show mapLookup ((openUpm ++ unity).foldl (fun m p => mapSet m (keyOf p) p) []) k = _
    rw [List.foldl_append, mapLookup_foldl_mapSet]
    have hsome := lastMatch_isSome_of_mem (fun w => decide (keyOf w = k)) unity v hm
      (by simp [hk])
    cases hl : lastMatch (fun w => decide (keyOf w = k)) unity with
    | some w => rfl
    | none =>
        rw [hl] at hsome
        exact Bool.noConfusion hsome
  · intro unity openUpm k hnone
    unfold getAllPackagesMap
    show mapLookup ((openUpm ++ unity).foldl (fun m p => mapSet m (keyOf p) p) []) k = _
    rw [List.foldl_append, mapLookup_foldl_mapSet]
    rw [lastMatch_eq_none _ unity (fun v hv => by simp [hnone v hv])]
    rw [mapLookup_foldl_mapSet]
    cases lastMatch (fun w => decide (keyOf w = k)) openUpm with
    | some w => rfl
    | none => rfl

/-- Witness for the hypotheses of `getAllPackages_merge_semantics`. -/
theorem getAllPackages_merge_semantics_witness :
    mapLookup (getAllPackagesMap (fun s : Str => s) (.ok [str "a"]) (.ok [str "a"]))
        (str "a") = some (str "a") ∧
    mapLookup (getAllPackagesMap (fun s : Str => s) (.ok [str "b"]) (.ok [str "a"]))
        (str "a") = some (str "a") := by
  constructor
  · rw [(getAllPackages_merge_semantics (fun s : Str => s)).2.2.1 [str "a"] [str "a"]
      (str "a") (str "a") (by simp) rfl]
    decide
  · rw [(getAllPackages_merge_semantics (fun s : Str => s)).2.2.2 [str "b"] [str "a"]
      (str "a") (by decide)]
    decide

/-! ## C4: local-editor path-traversal defence -/

/-- C4: `getPackageInfo("../../etc/passwd")` and
`getPackageInfo("com.unity.foo/../../etc")` return `null` with no
filesystem read at all; and the allow-list validation rejects every name
containing `..`, every name with a leading path separator, and every
name containing one of the denied special characters, before any path
join. -/
theorem editor_path_traversal_rejected :
    (∀ (fs : EditorFs) (cache : Option PackageRecord) (inst : List Str),
        editorGetPackageInfo fs cache inst (str "../../etc/passwd") = (none, []) ∧
        editorGetPackageInfo fs cache inst (str "com.unity.foo/../../etc") = (none, [])) ∧
    (∀ name : Str, strIncludes name (str "..") = true →
        isValidPackageName name = false) ∧
    (∀ name : Str, strStarts name (str "/") = true →
        isValidPackageName name = false) ∧
    (∀ name : Str, strStarts name (str "\\") = true →
        isValidPackageName name = false) ∧
    (∀ (name : Str) (c : Char), c ∈ forbiddenNameChars → c ∈ name →
        isValidPackageName name = false) ∧
    (∀ (fs : EditorFs) (cache : Option PackageRecord) (inst : List Str) (name : Str),
        isValidPackageName name = false →
        editorGetPackageInfo fs cache inst name = (none, [])) := by
  have hrej : ∀ (fs : EditorFs) (cache : Option PackageRecord) (inst : List Str)
      (name : Str), isValidPackageName name = false →
      editorGetPackageInfo fs cache inst name = (none, []) := by
    intro fs cache inst name h
    unfold editorGetPackageInfo
    simp [h]
  refine ⟨?_, ?_, ?_, ?_, ?_, hrej⟩
  · intro fs cache inst
    exact ⟨hrej fs cache inst _ (by decide), hrej fs cache inst _ (by decide)⟩
  · intro name h
    unfold isValidPackageName
    split
    · rfl
    · simp [h]
  · intro name h
    unfold isValidPackageName
    split
    · rfl
    · simp [h]
  · intro name h
    unfold isValidPackageName
    split
    · rfl
    · simp [h]
  · intro name c hc hm
    have hany : name.any (fun c => decide (c ∈ forbiddenNameChars)) = true :=
      List.any_eq_true.mpr ⟨c, hm, by simp [hc]⟩
    unfold isValidPackageName
    split
    · rfl
    · simp [hany]

/-- Witness for the hypotheses of `editor_path_traversal_rejected`. -/
theorem editor_path_traversal_rejected_witness :
    isValidPackageName (str "a..b") = false ∧
    isValidPackageName (str "/etc") = false ∧
    isValidPackageName (str "\\etc") = false ∧
    isValidPackageName (str "a*b") = false ∧
    editorGetPackageInfo
        ⟨fun s => s, fun a b => a ++ b, fun _ _ => true, fun _ => none⟩
        none [] (str "a..b") = (none, []) := by
  refine ⟨?_, ?_, ?_, ?_, ?_⟩
  · exact editor_path_traversal_rejected.2.1 (str "a..b") (by decide)
  · exact editor_path_traversal_rejected.2.2.1 (str "/etc") (by decide)
  · exact editor_path_traversal_rejected.2.2.2.1 (str "\\etc") (by decide)
  · exact editor_path_traversal_rejected.2.2.2.2.1 (str "a*b") '*' (by decide) (by decide)
  · exact editor_path_traversal_rejected.2.2.2.2.2
      ⟨fun s => s, fun a b => a ++ b, fun _ _ => true, fun _ => none⟩
      none [] (str "a..b") (by decide)

/-! ## C5: NotFound swallowed at the client boundary -/

/-- C5: on a cache miss whose detail fetch fails with `NOT_FOUND`,
`getPackageInfo` returns `null` and `getVersions` returns `[]`; every
other error kind is re-thrown unchanged. -/
theorem npm_notfound_absence :
    npmGetPackageInfo none (.error .notFound) = .ok none ∧
    npmGetVersions none (.error .notFound) = .ok [] ∧
    (∀ e : RegistryErrorCode, e ≠ .notFound →
      npmGetPackageInfo none (.error e) = .error e ∧
      npmGetVersions none (.error e) = .error e) := by
  refine ⟨rfl, rfl, ?_⟩
  intro e he
  constructor
  · unfold npmGetPackageInfo
    simp [he]
  · unfold npmGetVersions
    simp [he]

/-- Witness for the hypothesis of `npm_notfound_absence`. -/
theorem npm_notfound_absence_witness :
    npmGetPackageInfo none (.error .networkError) = .error .networkError ∧
    npmGetVersions none (.error .rateLimited) = .error .rateLimited := by
  exact ⟨(npm_notfound_absence.2.2 .networkError (by decide)).1,
    (npm_notfound_absence.2.2 .rateLimited (by decide)).2⟩

/-! ## C8: PackageInfo producers and the name/version invariant -/

/-- C8 counterexample: `parsePackageEntry` and the editor's
`readPackageJson` field mapping do *not* reject records missing a string
`name` or `version`: on the empty object, `parsePackageEntry` produces a
record (never `null`) with `name` undefined and `version` substituted
with `"0.0.0"`, and `readPackageJson` produces a record with both
`name` and `version` undefined. -/
theorem package_producer_counterexample :
    (parsePackageEntry (Json.obj [])).name = none ∧
    (parsePackageEntry (Json.obj [])).version = some (Json.str (str "0.0.0")) ∧
    (readPackageJsonMap (Json.obj [])).name = none ∧
    (readPackageJsonMap (Json.obj [])).version = none :=
  ⟨rfl, rfl, rfl, rfl⟩

/-- C8 (amended): only `buildPackageInfo` (the local-package producer)
rejects records lacking a string `name` or a string `version` by
returning `null`; `parsePackageEntry` never returns `null` (its `version`
is always defined, substituting `"0.0.0"` when `dist-tags` is missing,
and its `name` is absent exactly when the entry's is), and the editor's
`readPackageJson` mapping passes missing fields through unvalidated. -/
theorem package_producer_validation :
    (∀ j : Json,
        hasStrField j (str "name") = false ∨ hasStrField j (str "version") = false →
        buildPackageInfo j = none) ∧
    (∀ j : Json, (parsePackageEntry j).version.isSome = true) ∧
    (∀ j : Json, getField j (str "dist-tags") = none →
        (parsePackageEntry j).version = some (Json.str (str "0.0.0"))) ∧
    (∀ j : Json, getField j (str "name") = none →
        (parsePackageEntry j).name = none ∧ (readPackageJsonMap j).name = none) ∧
    (∀ j : Json, getField j (str "version") = none →
        (readPackageJsonMap j).version = none) := by
  refine ⟨?_, ?_, ?_, ?_, ?_⟩
  · intro j h
    unfold buildPackageInfo
    split
    · rfl
    · unfold hasStrField at h
      rcases h with h | h
      · cases hn : getField j (str "name") with
        | none => simp [hn]
        | some v =>
            rw [hn] at h
            cases v <;> simp_all [hn]
      · cases hn : getField j (str "name") with
        | none => simp [hn]
        | some v =>
            cases hm : getField j (str "version") with
            | none => cases v <;> simp [hn, hm]
            | some w =>
                rw [hm] at h
                cases v <;> cases w <;> simp_all [hn, hm]
  · intro j
    simp [parsePackageEntry]
  · intro j h
    simp [parsePackageEntry, h]
  · intro j h
    exact ⟨by simp [parsePackageEntry, h], by simp [readPackageJsonMap, h]⟩
  · intro j h
    simp [readPackageJsonMap, h]

/-- Witness for the hypotheses of `package_producer_validation`. -/
theorem package_producer_validation_witness :
    buildPackageInfo (Json.obj [(str "name", Json.str (str "x"))]) = none ∧
    (parsePackageEntry (Json.obj [(str "a", Json.num 1)])).version
      = some (Json.str (str "0.0.0")) ∧
    (readPackageJsonMap (Json.obj [(str "a", Json.num 1)])).version = none := by
  refine ⟨?_, ?_, ?_⟩
  · exact package_producer_validation.1 (Json.obj [(str "name", Json.str (str "x"))])
      (Or.inr rfl)
  · exact package_producer_validation.2.2.1 (Json.obj [(str "a", Json.num 1)]) rfl
  · exact package_producer_validation.2.2.2.2 (Json.obj [(str "a", Json.num 1)]) rfl

/-! ## C9: the empty `file:` reference diagnostic -/

theorem processDep_empty_fileref (env : DiagEnv) (n : Str) :
    processDep env ⟨n, str "file:"⟩ =
      ([⟨Severity.error, str "Empty path in file: reference"⟩], []) := by
  have h1 : isValidVersionFormat (str "file:") = true := by decide
  have h2 : isFileReference (str "file:") = true := by decide
  have h3 : validateFileReferenceFormat (str "file:") =
      ⟨false, some (str "Empty path in file: reference")⟩ := by decide
  simp [processDep, fileRefDiags, h1, h2, h3]

theorem getDiagnosticsDeps_foldl_spec (env : DiagEnv) (deps : List DepEntry)
    (acc : List Diag × List Str) :
    deps.foldl
        (fun acc dep =>
          let r := processDep env dep
          (acc.1 ++ r.1, acc.2 ++ r.2)) acc =
      (acc.1 ++ (deps.map (fun d => (processDep env d).1)).flatten,
        acc.2 ++ (deps.map (fun d => (processDep env d).2)).flatten) := by
  induction deps generalizing acc with
  | nil => simp
  | cons d rest ih =>
      simp only [List.foldl_cons, List.map_cons, List.flatten]
      rw [ih]
      simp [List.append_assoc]

theorem processDep_probe_shape (env : DiagEnv) (d : DepEntry) :
    (processDep env d).2 = [] ∨ (processDep env d).2 = [d.version] := by
  unfold processDep fileRefDiags
  repeat' split
  all_goals simp [apply_ite Prod.snd]

/-- C9: a dependency whose value is exactly `file:` (empty path) yields
one diagnostic, `Empty path in file: reference` at severity Error, and
the diagnostics pass never performs a filesystem probe for the `file:`
reference itself — for every entry of every dependency list and every
I/O environment. -/
theorem empty_fileref_diagnostic :
    (∀ (env : DiagEnv) (n : Str),
        processDep env ⟨n, str "file:"⟩ =
          ([⟨Severity.error, str "Empty path in file: reference"⟩], [])) ∧
    (∀ (env : DiagEnv) (deps : List DepEntry) (d : DepEntry), d ∈ deps →
        d.version = str "file:" →
        (⟨Severity.error, str "Empty path in file: reference"⟩ : Diag)
          ∈ (getDiagnosticsDeps env deps).1) ∧
    (∀ (env : DiagEnv) (deps : List DepEntry),
        str "file:" ∉ (getDiagnosticsDeps env deps).2) := by
  refine ⟨processDep_empty_fileref, ?_, ?_⟩
  · intro env deps d hmem hver
    unfold getDiagnosticsDeps
    rw [getDiagnosticsDeps_foldl_spec]
    simp only [List.nil_append]
    apply List.mem_flatten.mpr
    refine ⟨(processDep env d).1, List.mem_map.mpr ⟨d, hmem, rfl⟩, ?_⟩
    obtain ⟨dn, dv⟩ := d
    simp only at hver
    subst hver
    rw [processDep_empty_fileref]
    simp
  · intro env deps hmem
    unfold getDiagnosticsDeps at hmem
    rw [getDiagnosticsDeps_foldl_spec] at hmem
    simp only [List.nil_append] at hmem
    obtain ⟨l, hl, hin⟩ := List.mem_flatten.mp hmem
    obtain ⟨d, hd, rfl⟩ := List.mem_map.mp hl
    rcases processDep_probe_shape env d with h | h
    · rw [h] at hin
      cases hin
    · rw [h] at hin
      have hver : d.version = str "file:" := (List.mem_singleton.mp hin).symm
      obtain ⟨dn, dv⟩ := d
      simp only at hver
      subst hver
      rw [processDep_empty_fileref] at h
      cases h

/-- Witness for the hypotheses of `empty_fileref_diagnostic`. -/
theorem empty_fileref_diagnostic_witness :
    (⟨Severity.error, str "Empty path in file: reference"⟩ : Diag) ∈
      (getDiagnosticsDeps
        ⟨fun _ => none, fun s => s, fun _ => true, fun _ => ⟨[], false, false⟩,
          fun _ => true, fun _ _ => true, fun _ => none, true⟩
        [⟨str "a", str "file:"⟩]).1 := by
  exact empty_fileref_diagnostic.2.1
    ⟨fun _ => none, fun s => s, fun _ => true, fun _ => ⟨[], false, false⟩,
      fun _ => true, fun _ _ => true, fun _ => none, true⟩
    [⟨str "a", str "file:"⟩] ⟨str "a", str "file:"⟩ (by simp) rfl

/-! ## C10: the `file://` form bypasses path validation -/

/-- C10: every reference beginning with `file://` parses successfully
with `isGitProtocol = true` and `path` the remainder after the prefix,
skipping the empty-path, control-character and maximum-length checks;
`validateFileReferenceFormat` therefore reports it valid even when the
remainder is empty or holds control characters. -/
theorem git_fileref_bypasses_validation :
    (∀ rest : Str,
      parseFileReference (fileGitPrefixLit ++ rest) =
        .ok ⟨fileGitPrefixLit ++ rest, rest, true, false, true⟩ ∧
      validateFileReferenceFormat (fileGitPrefixLit ++ rest) = ⟨true, none⟩) ∧
    validateFileReferenceFormat (str "file://") = ⟨true, none⟩ ∧
    validateFileReferenceFormat (str "file://" ++ [Char.ofNat 0]) = ⟨true, none⟩ := by
  have hmain : ∀ rest : Str,
      parseFileReference (fileGitPrefixLit ++ rest) =
        .ok ⟨fileGitPrefixLit ++ rest, rest, true, false, true⟩ := by
    intro rest
    have hgit : isGitFileReference (fileGitPrefixLit ++ rest) = true := by
      unfold isGitFileReference
      exact strStarts_append _ _
    have hfile : isFileReference (fileGitPrefixLit ++ rest) = true := by
      unfold isFileReference
      rw [show fileGitPrefixLit = filePrefixLit ++ str "//" from rfl, List.append_assoc]
      exact strStarts_append _ _
    have hdrop : (fileGitPrefixLit ++ rest).drop fileGitPrefixLit.length = rest :=
      List.drop_left _ _
    unfold parseFileReference
    rw [hfile, hgit]
    simp only [Bool.not_true, if_neg (by decide : ¬ (false = true))]
    rw [hdrop]
    simp
  refine ⟨?_, ?_, ?_⟩
  · intro rest
    refine ⟨hmain rest, ?_⟩
    unfold validateFileReferenceFormat
    rw [hmain rest]
  · show validateFileReferenceFormat (fileGitPrefixLit ++ []) = ⟨true, none⟩
    unfold validateFileReferenceFormat
    rw [hmain []]
  · show validateFileReferenceFormat (fileGitPrefixLit ++ [Char.ofNat 0]) = ⟨true, none⟩
    unfold validateFileReferenceFormat
    rw [hmain [Char.ofNat 0]]

end UpmLsp
